import Mathlib

/-!
Shallow embedding of a blackjack Monte Carlo simulator.

The Python source (`main.py`) defines `Card`, `Deck` (a shoe), `Hand`,
an abstract `Strategy` with one concrete `BasicStrategy`, a `Game`
round engine (`deal`, `player_plays`, `dealer_plays`, `get_result`),
a round runner `play_hand`, and a driver `simulate`.

Modelling choices:
* Python floats (bets, bankrolls, payoffs) are modelled as `ℚ`.
* The random shuffle is an explicit function parameter
  `shuffle : List Card → List Card`; `random.shuffle` permutes a list,
  so theorems that need it assume `shuffle` preserves length.
* `list.pop()` removes and returns the LAST element; an empty pop
  (Python `IndexError`) is modelled as `none`.
* The unbounded `while` loops of `player_plays` and `dealer_plays`
  are given an explicit fuel argument; fuel exhaustion is `none`,
  a modelling artifact distinct from any Python behaviour.
* Python exceptions (`ValueError` for an invalid bet,
  `ZeroDivisionError` in `simulate`) are explicit error values.
-/

namespace Blackjack

/-- The 13 card ranks, `{2..10, J, Q, K, A}`. -/
inductive Rank where
  | two | three | four | five | six | seven | eight | nine | ten
  | jack | queen | king | ace
deriving DecidableEq, Fintype

/-- Source `Card`: a single playing card, holding only its rank. -/
structure Card where
  rank : Rank
deriving DecidableEq

/-- Source `Card.value`: 11 for an Ace, 10 for J/Q/K, the numeral otherwise. -/
def Card.value (c : Card) : Nat :=
  match c.rank with
  | .ace => 11
  | .jack => 10
  | .queen => 10
  | .king => 10
  | .two => 2
  | .three => 3
  | .four => 4
  | .five => 5
  | .six => 6
  | .seven => 7
  | .eight => 8
  | .nine => 9
  | .ten => 10

/-- Source `Deck.RANKS`, in source order. -/
def RANKS : List Rank :=
  [.two, .three, .four, .five, .six, .seven, .eight, .nine, .ten,
   .jack, .queen, .king, .ace]

/-- One deck worth of cards: `RANKS * 4` mapped to `Card` (52 cards). -/
def oneDeckCards : List Card :=
  (RANKS ++ RANKS ++ RANKS ++ RANKS).map Card.mk

/-- The card population of `Deck.reset`:
`[Card(rank) for _ in range(num_decks) for rank in RANKS * 4]`. -/
def buildDeck : Nat → List Card
  | 0 => []
  | n + 1 => oneDeckCards ++ buildDeck n

/-- Source `Deck` (the shoe): its card list plus the configured deck count. -/
structure Deck where
  cards : List Card
  num_decks : Nat
deriving DecidableEq

/-- Source `Deck.reset`: rebuild the full population and shuffle it. -/
def Deck.reset (shuffle : List Card → List Card) (d : Deck) : Deck :=
  { cards := shuffle (buildDeck d.num_decks), num_decks := d.num_decks }

/-- Source `Deck.__init__(num_decks)`: start empty, then `reset`. -/
def mkDeck (shuffle : List Card → List Card) (nd : Nat) : Deck :=
  Deck.reset shuffle { cards := [], num_decks := nd }

/-- Source `Deck.draw`: if fewer than 10 cards remain, `reset` first; then
`pop()` the last card.  `none` models Python's `IndexError` on an
empty pop. -/
def Deck.draw (shuffle : List Card → List Card) (d : Deck) : Option (Card × Deck) :=
  let d' := if d.cards.length < 10 then Deck.reset shuffle d else d
  match d'.cards.getLast? with
  | none => none
  | some c => some (c, { cards := d'.cards.dropLast, num_decks := d'.num_decks })

/-- A `Hand` is its ordered list of cards (`add_card` appends). -/
abbrev Hand := List Card

/-- The first loop of `Hand.value`: sum of card values (Aces as 11)
paired with the number of Aces. -/
def countBase : Hand → Nat × Nat
  | [] => (0, 0)
  | c :: cs =>
      ((countBase cs).1 + c.value,
       if c.rank = Rank.ace then (countBase cs).2 + 1 else (countBase cs).2)

/-- The `while total > 21 and aces > 0` loop of `Hand.value`:
subtract 10 and consume one Ace per iteration. -/
def reduceAces : Nat → Nat → Nat × Nat
  | t, 0 => (t, 0)
  | t, a + 1 => if 21 < t then reduceAces (t - 10) a else (t, a + 1)

/-- Source `Hand.value`: `(total, is_soft)` with `is_soft = aces > 0` after
the reduction loop. -/
def handValue (h : Hand) : Nat × Bool :=
  ((reduceAces (countBase h).1 (countBase h).2).1,
   decide (0 < (reduceAces (countBase h).1 (countBase h).2).2))

/-- Source `Hand.is_blackjack`: exactly 2 cards and total 21. -/
def isBlackjack (h : Hand) : Bool :=
  h.length == 2 && (handValue h).1 == 21

/-- The abstract `Strategy` interface. -/
structure Strategy where
  get_bet : ℚ → ℚ
  should_hit : Nat → Bool → Nat → Bool

/-- Source `BasicStrategy`: flat `min(10, bankroll)` bet; hit while a soft
total is below 18 or a hard total is below 17. -/
def basicStrategy : Strategy where
  get_bet := fun bankroll => min 10 bankroll
  should_hit := fun player_value is_soft _ =>
    if is_soft then decide (player_value < 18) else decide (player_value < 17)

/-- Source `dealer_hand.cards[0].value()`; dealt hands are never empty. -/
def upcardValue : Hand → Nat
  | [] => 0
  | c :: _ => c.value

/-- Source `Game.get_result`: the ordered settlement rules. -/
def getResult (ph dh : Hand) (bet : ℚ) : ℚ :=
  if 21 < (handValue ph).1 then -bet
  else if isBlackjack ph && !isBlackjack dh then bet * (3 / 2)
  else if isBlackjack dh && !isBlackjack ph then -bet
  else if isBlackjack ph && isBlackjack dh then 0
  else if 21 < (handValue dh).1 then bet
  else if (handValue dh).1 < (handValue ph).1 then bet
  else if (handValue ph).1 < (handValue dh).1 then -bet
  else 0

/-- Source `Game.deal`: draw player, dealer, player, dealer; returns
(player hand, dealer hand, remaining shoe). -/
def deal (shuffle : List Card → List Card) (d : Deck) :
    Option (Hand × Hand × Deck) :=
  match Deck.draw shuffle d with
  | none => none
  | some (c1, d1) =>
    match Deck.draw shuffle d1 with
    | none => none
    | some (c2, d2) =>
      match Deck.draw shuffle d2 with
      | none => none
      | some (c3, d3) =>
        match Deck.draw shuffle d3 with
        | none => none
        | some (c4, d4) => some ([c1, c3], [c2, c4], d4)

/-- Source `Game.player_plays`: consult `should_hit`; on a hit draw a card,
returning `false` (busted) as soon as the total exceeds 21; on a
stand return `true`.  Fuel exhaustion is `none`. -/
def playerPlays (shuffle : List Card → List Card) (strat : Strategy)
    (upcard : Nat) : Nat → Hand → Deck → Option (Bool × Hand × Deck)
  | 0, _, _ => none
  | fuel + 1, h, d =>
    let pv := handValue h
    if strat.should_hit pv.1 pv.2 upcard then
      match Deck.draw shuffle d with
      | none => none
      | some (c, d') =>
        let h' := h ++ [c]
        if 21 < (handValue h').1 then some (false, h', d')
        else playerPlays shuffle strat upcard fuel h' d'
    else some (true, h, d)

/-- Source `Game.dealer_plays`: draw while the dealer total is below 17. -/
def dealerPlays (shuffle : List Card → List Card) :
    Nat → Hand → Deck → Option (Hand × Deck)
  | 0, _, _ => none
  | fuel + 1, h, d =>
    if (handValue h).1 < 17 then
      match Deck.draw shuffle d with
      | none => none
      | some (c, d') => dealerPlays shuffle fuel (h ++ [c]) d'
    else some (h, d)

/-- Outcome of `play_hand`: the `ValueError` for an invalid bet, or a
played round with both final hands, the payoff and the new bankroll. -/
inductive RoundResult where
  | invalidBet
  | played (playerHand dealerHand : Hand) (payoff newBankroll : ℚ)
deriving DecidableEq

/-- Source `play_hand`: validate the bet, deal, run the player turn, run the
dealer turn only if the player did not bust, then settle.  The deck
is threaded explicitly; an invalid bet returns the deck untouched. -/
def playHand (fuel : Nat) (shuffle : List Card → List Card)
    (strat : Strategy) (d : Deck) (bankroll : ℚ) :
    Option (RoundResult × Deck) :=
  if strat.get_bet bankroll ≤ 0 ∨ bankroll < strat.get_bet bankroll then
    some (.invalidBet, d)
  else
    match deal shuffle d with
    | none => none
    | some (ph, dh, d1) =>
      match playerPlays shuffle strat (upcardValue dh) fuel ph d1 with
      | none => none
      | some (active, ph', d2) =>
        if active then
          match dealerPlays shuffle fuel dh d2 with
          | none => none
          | some (dh', d3) =>
            let payoff := getResult ph' dh' (strat.get_bet bankroll)
            some (.played ph' dh' payoff
              (bankroll - strat.get_bet bankroll + payoff), d3)
        else
          let payoff := getResult ph' dh (strat.get_bet bankroll)
          some (.played ph' dh payoff
            (bankroll - strat.get_bet bankroll + payoff), d2)

/-- The `RoundResult` of `playHand`, deck dropped. -/
def playHandOutcome (fuel : Nat) (shuffle : List Card → List Card)
    (strat : Strategy) (d : Deck) (bankroll : ℚ) : Option RoundResult :=
  (playHand fuel shuffle strat d bankroll).map Prod.fst

/-- The dealer hand produced by `deal`. -/
def dealtDealerHand (shuffle : List Card → List Card) (d : Deck) :
    Option Hand :=
  (deal shuffle d).map fun x => x.2.1

/-- The errors `simulate` can surface: the `ValueError` of an invalid
bet, the fuel artifact, and `ZeroDivisionError`. -/
inductive SimErr where
  | invalidBet
  | outOfFuel
  | zeroDivision
deriving DecidableEq

/-- The result dictionary of `simulate`. -/
structure Summary where
  final_bankroll : ℚ
  profit : ℚ
  roi : ℚ
  wins : Nat
  losses : Nat
  pushes : Nat
  win_rate : ℚ
deriving DecidableEq

/-- The `for _ in range(num_hands)` loop of `simulate`: stop on
bankruptcy, otherwise play a hand and classify the payoff sign. -/
def simLoop (strat : Strategy) (fuel : Nat)
    (shuffle : List Card → List Card) :
    Nat → ℚ → Deck → Nat → Nat → Nat → Except SimErr (ℚ × Nat × Nat × Nat)
  | 0, b, _, w, l, p => .ok (b, w, l, p)
  | n + 1, b, d, w, l, p =>
    if b ≤ 0 then .ok (b, w, l, p)
    else
      match playHand fuel shuffle strat d b with
      | some (.invalidBet, _) => .error .invalidBet
      | some (.played _ _ payoff nb, d') =>
        if 0 < payoff then simLoop strat fuel shuffle n nb d' (w + 1) l p
        else if payoff < 0 then simLoop strat fuel shuffle n nb d' w (l + 1) p
        else simLoop strat fuel shuffle n nb d' w l (p + 1)
      | none => .error .outOfFuel

/-- Source `simulate`: build the shoe, run the loop, then assemble the result
dictionary.  The two divisions are guarded in Python evaluation order
(`roi` divides by `starting_bankroll` before `win_rate` divides by
`num_hands`); a zero divisor is `ZeroDivisionError`. -/
def simulate (strat : Strategy) (fuel : Nat)
    (shuffle : List Card → List Card) (num_hands num_decks : Nat)
    (starting_bankroll : ℚ) : Except SimErr Summary :=
  let d := mkDeck shuffle num_decks
  match simLoop strat fuel shuffle num_hands starting_bankroll d 0 0 0 with
  | .error e => .error e
  | .ok (b, w, l, p) =>
    if starting_bankroll = 0 then .error .zeroDivision
    else if num_hands = 0 then .error .zeroDivision
    else .ok {
      final_bankroll := b
      profit := b - starting_bankroll
      roi := (b - starting_bankroll) / starting_bankroll * 100
      wins := w
      losses := l
      pushes := p
      win_rate := (w : ℚ) / (num_hands : ℚ) * 100 }

/-- One round viewed as a bankroll/shoe transition (successful rounds
only). -/
def roundStep (strat : Strategy) (fuel : Nat)
    (shuffle : List Card → List Card) (s : ℚ × Deck) : Option (ℚ × Deck) :=
  match playHand fuel shuffle strat s.2 s.1 with
  | some (.played _ _ _ nb, d') => some (nb, d')
  | _ => none

/-- Runs `k` successive rounds from a given bankroll/shoe state. -/
def runRounds (strat : Strategy) (fuel : Nat)
    (shuffle : List Card → List Card) : Nat → ℚ × Deck → Option (ℚ × Deck)
  | 0, s => some s
  | k + 1, s =>
    match roundStep strat fuel shuffle s with
    | none => none
    | some s' => runRounds strat fuel shuffle k s'

/-- After `k` rounds from the initial state of `simulate`, the
bankroll is `≤ 0`. -/
def bankruptAfter (strat : Strategy) (fuel : Nat)
    (shuffle : List Card → List Card) (nd : Nat) (b0 : ℚ) (k : Nat) : Bool :=
  match runRounds strat fuel shuffle k (b0, mkDeck shuffle nd) with
  | some (b, _) => decide (b ≤ 0)
  | none => false

/-- A strategy that bets the whole bankroll and always hits; used as a
concrete witness of bankruptcy and of a player bust. -/
def allInHitStrategy : Strategy where
  get_bet := fun b => b
  should_hit := fun _ _ _ => true

/-! ## Helper lemmas -/

lemma countBase_fst (h : Hand) : (countBase h).1 = (h.map Card.value).sum := by
  induction h with
  | nil => rfl
  | cons c cs ih => simp [countBase, ih]; omega

lemma countBase_snd (h : Hand) :
    (countBase h).2 = h.countP (fun c => c.rank == Rank.ace) := by
  induction h with
  | nil => rfl
  | cons c cs ih =>
    by_cases hc : c.rank = Rank.ace <;>
      simp [countBase, ih, List.countP_cons, hc]

lemma reduceAces_spec (a : Nat) : ∀ t : Nat, ∃ k, k ≤ a ∧
    reduceAces t a = (t - 10 * k, a - k)
    ∧ (t - 10 * k ≤ 21 ∨ k = a)
    ∧ ∀ j < k, 21 < t - 10 * j := by
  induction a with
  | zero =>
    intro t
    exact ⟨0, le_rfl, by simp [reduceAces], Or.inr rfl, by omega⟩
  | succ a ih =>
    intro t
    by_cases h : 21 < t
    · obtain ⟨k, hk, he, hstop, hwhile⟩ := ih (t - 10)
      refine ⟨k + 1, by omega, ?_, ?_, ?_⟩
      · have e1 : t - 10 - 10 * k = t - 10 * (k + 1) := by omega
        have e2 : a - k = a + 1 - (k + 1) := by omega
        simp only [reduceAces, if_pos h, he, e1, e2]
      · rcases hstop with h' | h'
        · left; omega
        · right; omega
      · intro j hj
        cases j with
        | zero => simpa using h
        | succ j =>
          have := hwhile j (by omega)
          omega
    · exact ⟨0, by omega, by simp [reduceAces, h], Or.inl (by omega), by omega⟩

lemma buildDeck_length (n : Nat) : (buildDeck n).length = 52 * n := by
  induction n with
  | zero => rfl
  | succ n ih =>
    simp only [buildDeck, List.length_append, ih]
    have : oneDeckCards.length = 52 := by decide
    omega

lemma getResult_mem (ph dh : Hand) (bet : ℚ) :
    getResult ph dh bet = -bet ∨ getResult ph dh bet = 0 ∨
    getResult ph dh bet = bet ∨ getResult ph dh bet = bet * (3 / 2) := by
  unfold getResult
  split_ifs <;> tauto

lemma two_card_le_21 : ∀ r1 r2 : Rank,
    (handValue [Card.mk r1, Card.mk r2]).1 ≤ 21 := by decide

/-! ## Claim theorems -/

/-- C1: `Game.get_result` settles every end-of-round state by the eight
ordered rules with first-match-wins semantics: player bust loses the
bet; a lone player blackjack pays 1.5×bet; a lone dealer blackjack
loses the bet; double blackjack pushes; then dealer bust wins, a
higher player total wins, a lower one loses, equal totals push.  The
disjunction below is exhaustive (no fallthrough case is reachable) and
its cases are mutually exclusive. -/
theorem settlement_rules_c1 (ph dh : Hand) (bet : ℚ) :
    (21 < (handValue ph).1 ∧ getResult ph dh bet = -bet)
    ∨ ((handValue ph).1 ≤ 21 ∧ isBlackjack ph = true ∧ isBlackjack dh = false ∧
        getResult ph dh bet = bet * (3 / 2))
    ∨ ((handValue ph).1 ≤ 21 ∧ isBlackjack ph = false ∧ isBlackjack dh = true ∧
        getResult ph dh bet = -bet)
    ∨ ((handValue ph).1 ≤ 21 ∧ isBlackjack ph = true ∧ isBlackjack dh = true ∧
        getResult ph dh bet = 0)
    ∨ ((handValue ph).1 ≤ 21 ∧ isBlackjack ph = false ∧ isBlackjack dh = false ∧
        21 < (handValue dh).1 ∧ getResult ph dh bet = bet)
    ∨ ((handValue ph).1 ≤ 21 ∧ isBlackjack ph = false ∧ isBlackjack dh = false ∧
        (handValue dh).1 ≤ 21 ∧ (handValue dh).1 < (handValue ph).1 ∧
        getResult ph dh bet = bet)
    ∨ ((handValue ph).1 ≤ 21 ∧ isBlackjack ph = false ∧ isBlackjack dh = false ∧
        (handValue dh).1 ≤ 21 ∧ (handValue ph).1 < (handValue dh).1 ∧
        getResult ph dh bet = -bet)
    ∨ ((handValue ph).1 ≤ 21 ∧ isBlackjack ph = false ∧ isBlackjack dh = false ∧
        (handValue dh).1 ≤ 21 ∧ (handValue ph).1 = (handValue dh).1 ∧
        getResult ph dh bet = 0) := by
  by_cases h1 : 21 < (handValue ph).1
  · exact Or.inl ⟨h1, by simp [getResult, h1]⟩
  · have h1' : (handValue ph).1 ≤ 21 := by omega
    cases hpb : isBlackjack ph <;> cases hdb : isBlackjack dh
    · -- neither blackjack: rules 5–8
      by_cases h5 : 21 < (handValue dh).1
      · refine Or.inr (Or.inr (Or.inr (Or.inr (Or.inl
          ⟨h1', rfl, rfl, h5, ?_⟩))))
        simp [getResult, h1, hpb, hdb, h5]
      · have h5' : (handValue dh).1 ≤ 21 := by omega
        rcases Nat.lt_trichotomy (handValue dh).1 (handValue ph).1 with h6 | h6 | h6
        · refine Or.inr (Or.inr (Or.inr (Or.inr (Or.inr (Or.inl
            ⟨h1', rfl, rfl, h5', h6, ?_⟩)))))
          simp [getResult, h1, hpb, hdb, h5, h6]
        · have hA : ¬((handValue dh).1 < (handValue ph).1) := by omega
          have hB : ¬((handValue ph).1 < (handValue dh).1) := by omega
          refine Or.inr (Or.inr (Or.inr (Or.inr (Or.inr (Or.inr (Or.inr
            ⟨h1', rfl, rfl, h5', h6.symm, ?_⟩))))))
          simp [getResult, h1, hpb, hdb, h5, hA, hB]
        · have hA : ¬((handValue dh).1 < (handValue ph).1) := by omega
          refine Or.inr (Or.inr (Or.inr (Or.inr (Or.inr (Or.inr (Or.inl
            ⟨h1', rfl, rfl, h5', h6, ?_⟩))))))
          simp [getResult, h1, hpb, hdb, h5, h6, hA]
    · -- dealer blackjack only: rule 3
      refine Or.inr (Or.inr (Or.inl ⟨h1', rfl, rfl, ?_⟩))
      simp [getResult, h1, hpb, hdb]
    · -- player blackjack only: rule 2
      refine Or.inr (Or.inl ⟨h1', rfl, rfl, ?_⟩)
      simp [getResult, h1, hpb, hdb]
    · -- double blackjack: rule 4
      refine Or.inr (Or.inr (Or.inr (Or.inl ⟨h1', rfl, rfl, ?_⟩)))
      simp [getResult, h1, hpb, hdb]

/-- C2: the code contradicts this claim.  With `num_hands = 0` the loop
body never runs, but `simulate` then computes
`win_rate = wins / num_hands * 100`, an unguarded division by zero, so
the call raises `ZeroDivisionError` instead of returning the summary
the claim demands. -/
theorem simulate_zero_hands_division_c2 :
    simulate basicStrategy 1 id 0 1 10000 = Except.error SimErr.zeroDivision := by
  rfl

/-- C3: `Hand.value()` returns `(total, is_soft)` where the base sum
counts every card at its base value (Aces as 11), the Ace pool is the
number of Aces, and the loop performs some number `k` of 10-point
reductions: each performed reduction happened while the running total
exceeded 21 and an unreduced Ace remained, the loop stops only at a
total of at most 21 or with every Ace reduced, and `is_soft` holds iff
an Ace is still counted as 11 afterwards. -/
theorem hand_value_spec_c3 (h : Hand) :
    (countBase h).1 = (h.map Card.value).sum
    ∧ (countBase h).2 = h.countP (fun c => c.rank == Rank.ace)
    ∧ ∃ k, k ≤ (countBase h).2
        ∧ (handValue h).1 = (countBase h).1 - 10 * k
        ∧ ((handValue h).2 = true ↔ k < (countBase h).2)
        ∧ ((handValue h).1 ≤ 21 ∨ k = (countBase h).2)
        ∧ ∀ j < k, 21 < (countBase h).1 - 10 * j := by
  refine ⟨countBase_fst h, countBase_snd h, ?_⟩
  obtain ⟨k, hk, he, hstop, hwhile⟩ :=
    reduceAces_spec (countBase h).2 (countBase h).1
  refine ⟨k, hk, ?_, ?_, ?_, hwhile⟩
  · simp [handValue, he]
  · simp [handValue, he]
  · simpa [handValue, he] using hstop

/-- C4: `is_blackjack()` holds iff the hand has exactly 2 cards whose
best total is 21; `{A, K}` is a blackjack while `{A, A, 9}` (three
cards totalling 21) is not. -/
theorem blackjack_iff_c4 :
    (∀ h : Hand, isBlackjack h = true ↔
      (h.length = 2 ∧ (handValue h).1 = 21))
    ∧ isBlackjack [Card.mk Rank.ace, Card.mk Rank.king] = true
    ∧ isBlackjack [Card.mk Rank.ace, Card.mk Rank.ace, Card.mk Rank.nine]
        = false := by
  refine ⟨fun h => ?_, by decide, by decide⟩
  simp [isBlackjack]

/-- C9: the provided `BasicStrategy` bets `min(10, bankroll)` and hits
exactly when the hand is soft with total below 18 or hard with total
below 17, independent of the dealer upcard. -/
theorem basic_strategy_c9 :
    (∀ b : ℚ, basicStrategy.get_bet b = min 10 b)
    ∧ (∀ pv s u, basicStrategy.should_hit pv s u = true ↔
        ((s = true ∧ pv < 18) ∨ (s = false ∧ pv < 17)))
    ∧ (∀ pv s u u',
        basicStrategy.should_hit pv s u = basicStrategy.should_hit pv s u') := by
  refine ⟨fun _ => rfl, fun pv s u => ?_, fun _ _ _ _ => rfl⟩
  cases s <;> simp [basicStrategy]

/-- The remaining card count after a draw. -/
def drawnCount (shuffle : List Card → List Card) (d : Deck) : Option Nat :=
  (Deck.draw shuffle d).map fun p => p.2.cards.length

/-- C5: with at least one deck configured and a length-preserving
shuffle, `draw()` always succeeds; it reshuffles exactly when the
pre-draw count is below 10, leaving `num_decks*52 − 1` cards, and
otherwise leaves the previous count minus one. -/
theorem shoe_draw_invariant_c5 (shuffle : List Card → List Card) (d : Deck)
    (hs : ∀ l, (shuffle l).length = l.length) (hd : 1 ≤ d.num_decks) :
    (Deck.draw shuffle d).isSome = true
    ∧ drawnCount shuffle d =
        some (if d.cards.length < 10 then 52 * d.num_decks - 1
              else d.cards.length - 1) := by
  by_cases hlen : d.cards.length < 10
  · have hL : (shuffle (buildDeck d.num_decks)).length = 52 * d.num_decks := by
      rw [hs, buildDeck_length]
    have hne : shuffle (buildDeck d.num_decks) ≠ [] := by
      intro hnil
      rw [hnil] at hL
      simp at hL
      omega
    obtain ⟨c, hc⟩ : ∃ c, (shuffle (buildDeck d.num_decks)).getLast? = some c := by
      cases hg : (shuffle (buildDeck d.num_decks)).getLast? with
      | none => exact absurd (List.getLast?_eq_none_iff.mp hg) hne
      | some c => exact ⟨c, rfl⟩
    constructor
    · simp [Deck.draw, Deck.reset, hlen, hc]
    · simp [drawnCount, Deck.draw, Deck.reset, hlen, hc, List.length_dropLast, hL]
  · have hpos : 0 < d.cards.length := by omega
    have hne : d.cards ≠ [] := by
      intro hnil
      rw [hnil] at hpos
      simp at hpos
    obtain ⟨c, hc⟩ : ∃ c, d.cards.getLast? = some c := by
      cases hg : d.cards.getLast? with
      | none => exact absurd (List.getLast?_eq_none_iff.mp hg) hne
      | some c => exact ⟨c, rfl⟩
    constructor
    · simp [Deck.draw, hlen, hc]
    · simp [drawnCount, Deck.draw, hlen, hc, List.length_dropLast]

/-- C5 witness: drawing from a freshly built single-deck shoe (52
cards, identity shuffle) succeeds and leaves 51 cards. -/
theorem shoe_draw_invariant_c5_witness :
    (Deck.draw id (mkDeck id 1)).isSome = true
    ∧ drawnCount id (mkDeck id 1) =
        some (if (mkDeck id 1).cards.length < 10 then
                52 * (mkDeck id 1).num_decks - 1
              else (mkDeck id 1).cards.length - 1) :=
  shoe_draw_invariant_c5 id (mkDeck id 1) (fun _ => rfl) (by decide)

/-- C6: `play_hand` raises the invalid-bet `ValueError` exactly when
the strategy's bet is non-positive or exceeds the bankroll, and an
invalid bet aborts the round before any card is dealt: the shoe comes
back unchanged. -/
theorem invalid_bet_iff_c6 (fuel : Nat) (shuffle : List Card → List Card)
    (strat : Strategy) (d : Deck) (b : ℚ) :
    (playHand fuel shuffle strat d b = some (RoundResult.invalidBet, d) ↔
      (strat.get_bet b ≤ 0 ∨ b < strat.get_bet b))
    ∧ ∀ d', playHand fuel shuffle strat d b = some (RoundResult.invalidBet, d') →
        d' = d := by
  by_cases hv : strat.get_bet b ≤ 0 ∨ b < strat.get_bet b
  · refine ⟨⟨fun _ => hv, fun _ => by simp [playHand, hv]⟩, fun d' h => ?_⟩
    simp [playHand, hv] at h
    exact h.symm
  · have hne : ∀ d', playHand fuel shuffle strat d b ≠
        some (RoundResult.invalidBet, d') := by
      intro d' hcontra
      simp only [playHand, if_neg hv] at hcontra
      split at hcontra
      · simp at hcontra
      · split at hcontra
        · simp at hcontra
        · split at hcontra
          · split at hcontra
            · simp at hcontra
            · simp at hcontra
          · simp at hcontra
    exact ⟨⟨fun h => absurd h (hne d), fun h => absurd h hv⟩,
      fun d' h => absurd h (hne d')⟩

lemma playerPlays_stand_le (shuffle : List Card → List Card)
    (strat : Strategy) (up : Nat) :
    ∀ (fuel : Nat) (h : Hand) (d : Deck) (h' : Hand) (d' : Deck),
      (handValue h).1 ≤ 21 →
      playerPlays shuffle strat up fuel h d = some (true, h', d') →
      (handValue h').1 ≤ 21 := by
  intro fuel
  induction fuel with
  | zero => intro h d h' d' _ hc; simp [playerPlays] at hc
  | succ fuel ih =>
    intro h d h' d' hle hc
    simp only [playerPlays] at hc
    by_cases hs : strat.should_hit (handValue h).1 (handValue h).2 up
    · rw [if_pos hs] at hc
      cases hdraw : Deck.draw shuffle d with
      | none => rw [hdraw] at hc; simp at hc
      | some cd =>
        obtain ⟨c, d1⟩ := cd
        rw [hdraw] at hc
        simp only at hc
        by_cases hb : 21 < (handValue (h ++ [c])).1
        · rw [if_pos hb] at hc
          simp at hc
        · rw [if_neg hb] at hc
          exact ih (h ++ [c]) d1 h' d' (by omega) hc
    · rw [if_neg hs] at hc
      simp at hc
      obtain ⟨h1, h2⟩ := hc
      rw [← h1]
      exact hle

lemma deal_hands (shuffle : List Card → List Card) (d : Deck)
    (ph dh : Hand) (d' : Deck) (h : deal shuffle d = some (ph, dh, d')) :
    (handValue ph).1 ≤ 21 ∧ dh.length = 2 := by
  unfold deal at h
  cases h1 : Deck.draw shuffle d with
  | none => rw [h1] at h; simp at h
  | some x1 =>
    obtain ⟨c1, d1⟩ := x1
    rw [h1] at h
    simp only at h
    cases h2 : Deck.draw shuffle d1 with
    | none => rw [h2] at h; simp at h
    | some x2 =>
      obtain ⟨c2, d2⟩ := x2
      rw [h2] at h
      simp only at h
      cases h3 : Deck.draw shuffle d2 with
      | none => rw [h3] at h; simp at h
      | some x3 =>
        obtain ⟨c3, d3⟩ := x3
        rw [h3] at h
        simp only at h
        cases h4 : Deck.draw shuffle d3 with
        | none => rw [h4] at h; simp at h
        | some x4 =>
          obtain ⟨c4, d4⟩ := x4
          rw [h4] at h
          simp only [Option.some.injEq, Prod.mk.injEq] at h
          obtain ⟨hp, hd, _⟩ := h
          obtain ⟨r1⟩ := c1
          obtain ⟨r3⟩ := c3
          rw [← hp, ← hd]
          exact ⟨two_card_le_21 r1 r3, rfl⟩

/-- C7: if the player busts during the player turn, the dealer turn is
skipped entirely: the settled dealer hand is exactly the two cards it
was dealt, and the payoff is `-bet` regardless of the dealer total. -/
theorem player_bust_skips_dealer_c7 (fuel : Nat)
    (shuffle : List Card → List Card) (strat : Strategy) (d : Deck) (b : ℚ)
    (dh0 ph dh : Hand) (payoff nb : ℚ)
    (h1 : dealtDealerHand shuffle d = some dh0)
    (h2 : playHandOutcome fuel shuffle strat d b =
      some (RoundResult.played ph dh payoff nb))
    (h3 : 21 < (handValue ph).1) :
    dh = dh0 ∧ dh0.length = 2 ∧ payoff = -(strat.get_bet b) := by
  unfold playHandOutcome playHand at h2
  by_cases hv : strat.get_bet b ≤ 0 ∨ b < strat.get_bet b
  · rw [if_pos hv] at h2; simp at h2
  · rw [if_neg hv] at h2
    cases hdeal : deal shuffle d with
    | none => rw [hdeal] at h2; simp at h2
    | some x =>
      obtain ⟨ph0, dh0', d1⟩ := x
      rw [hdeal] at h2
      simp only at h2
      have hd0 : dh0' = dh0 := by
        unfold dealtDealerHand at h1
        rw [hdeal] at h1
        simp at h1
        exact h1
      obtain ⟨hple, hdlen⟩ := deal_hands shuffle d ph0 dh0' d1 hdeal
      cases hpp : playerPlays shuffle strat (upcardValue dh0') fuel ph0 d1 with
      | none => rw [hpp] at h2; simp at h2
      | some y =>
        obtain ⟨active, ph1, d2⟩ := y
        rw [hpp] at h2
        simp only at h2
        cases active with
        | true =>
          rw [if_pos rfl] at h2
          cases hdp : dealerPlays shuffle fuel dh0' d2 with
          | none => rw [hdp] at h2; simp at h2
          | some z =>
            obtain ⟨dh1, d3⟩ := z
            rw [hdp] at h2
            simp at h2
            obtain ⟨hph, hdh, hpay, hnb⟩ := h2
            have hstand := playerPlays_stand_le shuffle strat
              (upcardValue dh0') fuel ph0 d1 ph1 d2 hple hpp
            rw [hph] at hstand
            omega
        | false =>
          simp at h2
          obtain ⟨hph, hdh, hpay, hnb⟩ := h2
          refine ⟨?_, ?_, ?_⟩
          · rw [← hdh]; exact hd0
          · rw [← hd0]; exact hdlen
          · rw [← hpay, hph]
            simp [getResult, h3]

/-- C7 witness: with an all-in always-hit strategy on a fresh
identity-shuffled single deck, the player is dealt `{A, Q}`, draws to
30 and busts; the dealer keeps exactly its dealt `{K, J}` and the
payoff is the lost bet. -/
theorem player_bust_skips_dealer_c7_witness :
    ([Card.mk Rank.king, Card.mk Rank.jack] : Hand) =
        [Card.mk Rank.king, Card.mk Rank.jack]
    ∧ ([Card.mk Rank.king, Card.mk Rank.jack] : Hand).length = 2
    ∧ (-10 : ℚ) = -(allInHitStrategy.get_bet 10) :=
  player_bust_skips_dealer_c7 20 id allInHitStrategy (mkDeck id 1) 10
    [Card.mk Rank.king, Card.mk Rank.jack]
    [Card.mk Rank.ace, Card.mk Rank.queen, Card.mk Rank.ten, Card.mk Rank.nine]
    [Card.mk Rank.king, Card.mk Rank.jack] (-10) (-10)
    (by with_unfolding_all decide) (by with_unfolding_all decide)
    (by with_unfolding_all decide)

lemma payoff_conclusion (bet b payoff nb : ℚ)
    (hp : payoff = -bet ∨ payoff = 0 ∨ payoff = bet ∨ payoff = bet * (3 / 2))
    (hnb : nb = b - bet + payoff) :
    (payoff = -bet ∨ payoff = 0 ∨ payoff = bet ∨ payoff = bet * (3 / 2))
    ∧ nb = b - bet + payoff
    ∧ (payoff = bet → nb = b)
    ∧ (payoff = 0 → nb = b - bet)
    ∧ (payoff = -bet → nb = b - 2 * bet)
    ∧ (payoff = bet * (3 / 2) → nb = b + bet / 2) := by
  refine ⟨hp, hnb, ?_, ?_, ?_, ?_⟩ <;> intro he <;> rw [hnb, he] <;> ring

/-- C10: every successfully played round pays off one of `-bet`, `0`,
`+bet`, `1.5*bet`, and the bankroll is updated to
`bankroll - bet + payoff`.  Consequently a won non-blackjack round
leaves the bankroll unchanged, a push costs the bet, a loss costs
twice the bet, and a won blackjack gains only half the bet. -/
theorem payoff_accounting_c10 (fuel : Nat)
    (shuffle : List Card → List Card) (strat : Strategy) (d : Deck) (b : ℚ)
    (ph dh : Hand) (payoff nb : ℚ)
    (h : playHandOutcome fuel shuffle strat d b =
      some (RoundResult.played ph dh payoff nb)) :
    (payoff = -(strat.get_bet b) ∨ payoff = 0 ∨ payoff = strat.get_bet b ∨
      payoff = strat.get_bet b * (3 / 2))
    ∧ nb = b - strat.get_bet b + payoff
    ∧ (payoff = strat.get_bet b → nb = b)
    ∧ (payoff = 0 → nb = b - strat.get_bet b)
    ∧ (payoff = -(strat.get_bet b) → nb = b - 2 * strat.get_bet b)
    ∧ (payoff = strat.get_bet b * (3 / 2) → nb = b + strat.get_bet b / 2) := by
  unfold playHandOutcome playHand at h
  by_cases hv : strat.get_bet b ≤ 0 ∨ b < strat.get_bet b
  · rw [if_pos hv] at h; simp at h
  · rw [if_neg hv] at h
    cases hdeal : deal shuffle d with
    | none => rw [hdeal] at h; simp at h
    | some x =>
      obtain ⟨ph0, dh0, d1⟩ := x
      rw [hdeal] at h
      simp only at h
      cases hpp : playerPlays shuffle strat (upcardValue dh0) fuel ph0 d1 with
      | none => rw [hpp] at h; simp at h
      | some y =>
        obtain ⟨active, ph1, d2⟩ := y
        rw [hpp] at h
        simp only at h
        cases active with
        | true =>
          rw [if_pos rfl] at h
          cases hdp : dealerPlays shuffle fuel dh0 d2 with
          | none => rw [hdp] at h; simp at h
          | some z =>
            obtain ⟨dh1, d3⟩ := z
            rw [hdp] at h
            simp at h
            obtain ⟨hph, hdh, hpay, hnb⟩ := h
            refine payoff_conclusion (strat.get_bet b) b payoff nb ?_ ?_
            · rw [← hpay]; exact getResult_mem ph1 dh1 (strat.get_bet b)
            · rw [← hnb, hpay]
        | false =>
          simp at h
          obtain ⟨hph, hdh, hpay, hnb⟩ := h
          refine payoff_conclusion (strat.get_bet b) b payoff nb ?_ ?_
          · rw [← hpay]; exact getResult_mem ph1 dh0 (strat.get_bet b)
          · rw [← hnb, hpay]

/-- C10 witness: the concrete busted round above pays `-10` and takes
the bankroll from `10` to `-10 = 10 - 2*10`. -/
theorem payoff_accounting_c10_witness :
    ((-10 : ℚ) = -(allInHitStrategy.get_bet 10) ∨ (-10 : ℚ) = 0 ∨
      (-10 : ℚ) = allInHitStrategy.get_bet 10 ∨
      (-10 : ℚ) = allInHitStrategy.get_bet 10 * (3 / 2))
    ∧ (-10 : ℚ) = 10 - allInHitStrategy.get_bet 10 + (-10)
    ∧ ((-10 : ℚ) = allInHitStrategy.get_bet 10 → (-10 : ℚ) = 10)
    ∧ ((-10 : ℚ) = 0 → (-10 : ℚ) = 10 - allInHitStrategy.get_bet 10)
    ∧ ((-10 : ℚ) = -(allInHitStrategy.get_bet 10) →
        (-10 : ℚ) = 10 - 2 * allInHitStrategy.get_bet 10)
    ∧ ((-10 : ℚ) = allInHitStrategy.get_bet 10 * (3 / 2) →
        (-10 : ℚ) = 10 + allInHitStrategy.get_bet 10 / 2) :=
  payoff_accounting_c10 20 id allInHitStrategy (mkDeck id 1) 10
    [Card.mk Rank.ace, Card.mk Rank.queen, Card.mk Rank.ten, Card.mk Rank.nine]
    [Card.mk Rank.king, Card.mk Rank.jack] (-10) (-10)
    (by with_unfolding_all decide)

lemma playHand_bankrupt (fuel : Nat) (shuffle : List Card → List Card)
    (strat : Strategy) (d : Deck) (b : ℚ) (hb : b ≤ 0) :
    playHand fuel shuffle strat d b = some (RoundResult.invalidBet, d) := by
  have hv : strat.get_bet b ≤ 0 ∨ b < strat.get_bet b := by
    rcases le_or_lt (strat.get_bet b) 0 with hg | hg
    · exact Or.inl hg
    · exact Or.inr (lt_of_le_of_lt hb hg)
  simp [playHand, hv]

lemma simLoop_bankrupt (strat : Strategy) (fuel : Nat)
    (shuffle : List Card → List Card) (bk : ℚ) (dk : Deck) :
    ∀ k n b d w l p, k < n →
      runRounds strat fuel shuffle k (b, d) = some (bk, dk) → bk ≤ 0 →
      ∃ w' l' p',
        simLoop strat fuel shuffle n b d w l p = .ok (bk, w', l', p')
        ∧ w' + l' + p' = w + l + p + k := by
  intro k
  induction k with
  | zero =>
    intro n b d w l p hkn hr hb
    simp [runRounds] at hr
    obtain ⟨hb', hd'⟩ := hr
    cases n with
    | zero => omega
    | succ m =>
      refine ⟨w, l, p, ?_, by omega⟩
      rw [← hb']
      simp [simLoop, hb' ▸ hb]
  | succ k ih =>
    intro n b d w l p hkn hr hb
    cases n with
    | zero => omega
    | succ m =>
      simp only [runRounds] at hr
      cases hstep : roundStep strat fuel shuffle (b, d) with
      | none => rw [hstep] at hr; simp at hr
      | some s1 =>
        rw [hstep] at hr
        simp only at hr
        obtain ⟨b1, d1⟩ := s1
        have hbpos : ¬ b ≤ 0 := by
          intro hle
          have hinv := playHand_bankrupt fuel shuffle strat d b hle
          simp [roundStep, hinv] at hstep
        unfold roundStep at hstep
        cases hph : playHand fuel shuffle strat d b with
        | none => rw [hph] at hstep; simp at hstep
        | some rp =>
          obtain ⟨r, d'⟩ := rp
          rw [hph] at hstep
          cases r with
          | invalidBet => simp at hstep
          | played ph dh payoff nb =>
            simp only [Option.some.injEq, Prod.mk.injEq] at hstep
            obtain ⟨hnb, hd'⟩ := hstep
            subst hnb hd'
            have hkm : k < m := by omega
            by_cases hp1 : 0 < payoff
            · obtain ⟨w', l', p', hs, hsum⟩ :=
                ih m nb d' (w + 1) l p hkm hr hb
              refine ⟨w', l', p', ?_, by omega⟩
              simp only [simLoop, if_neg hbpos]
              rw [hph]
              simp only [if_pos hp1]
              exact hs
            · by_cases hp2 : payoff < 0
              · obtain ⟨w', l', p', hs, hsum⟩ :=
                  ih m nb d' w (l + 1) p hkm hr hb
                refine ⟨w', l', p', ?_, by omega⟩
                simp only [simLoop, if_neg hbpos]
                rw [hph]
                simp only [if_neg hp1, if_pos hp2]
                exact hs
              · obtain ⟨w', l', p', hs, hsum⟩ :=
                  ih m nb d' w l (p + 1) hkm hr hb
                refine ⟨w', l', p', ?_, by omega⟩
                simp only [simLoop, if_neg hbpos]
                rw [hph]
                simp only [if_neg hp1, if_neg hp2]
                exact hs

/-- C8: if the bankroll reaches a non-positive value after `k` rounds
with `k < num_hands`, the simulation loop stops early (bankruptcy
termination, not an error), and the returned summary satisfies
`wins + losses + pushes < num_hands`. -/
theorem bankruptcy_stops_early_c8 (strat : Strategy) (fuel : Nat)
    (shuffle : List Card → List Card) (num_hands nd k : Nat) (b0 : ℚ)
    (hb : 0 < b0) (hk : k < num_hands)
    (hbr : bankruptAfter strat fuel shuffle nd b0 k = true) :
    ∃ r, simulate strat fuel shuffle num_hands nd b0 = .ok r
      ∧ r.wins + r.losses + r.pushes < num_hands := by
  unfold bankruptAfter at hbr
  cases hrun : runRounds strat fuel shuffle k (b0, mkDeck shuffle nd) with
  | none => rw [hrun] at hbr; simp at hbr
  | some s =>
    obtain ⟨bk, dk⟩ := s
    rw [hrun] at hbr
    simp only [decide_eq_true_eq] at hbr
    obtain ⟨w', l', p', hs, hsum⟩ :=
      simLoop_bankrupt strat fuel shuffle bk dk k num_hands b0
        (mkDeck shuffle nd) 0 0 0 hk hrun hbr
    have hsim : simulate strat fuel shuffle num_hands nd b0 = .ok
        { final_bankroll := bk, profit := bk - b0,
          roi := (bk - b0) / b0 * 100, wins := w', losses := l',
          pushes := p', win_rate := (w' : ℚ) / (num_hands : ℚ) * 100 } := by
      unfold simulate
      simp only [hs]
      rw [if_neg (ne_of_gt hb), if_neg (by omega : ¬ num_hands = 0)]
    exact ⟨_, hsim, by simp; omega⟩

/-- C8 witness: with an all-in always-hit strategy starting from a
bankroll of 10, the first round busts the player and zeroes the
bankroll below 0, so a 2-hand simulation stops after 1 round and
counts `wins + losses + pushes = 1 < 2`. -/
theorem bankruptcy_stops_early_c8_witness :
    ∃ r, simulate allInHitStrategy 20 id 2 1 10 = .ok r
      ∧ r.wins + r.losses + r.pushes < 2 :=
  bankruptcy_stops_early_c8 allInHitStrategy 20 id 2 1 1 10
    (by norm_num) (by omega) (by with_unfolding_all decide)

end Blackjack
